import Mathlib

/-!
Verification of the sox flanger effect (src/flanger.c) against its
specification.  The C code's `double` values are embedded as exact
rationals (`ℚ`), `sox_size_t` as `ℕ`, and `sox_ssample_t` (32-bit signed
samples) as `ℤ`.  C conversions from `double` to unsigned integer types
truncate toward zero; `truncNat` below models this for non-negative
values.  A `%` whose divisor is zero is undefined behaviour in C; the
streaming function is therefore embedded in `Option`, returning `none`
exactly when such a modulo would be evaluated.
-/

/-- Interpolation mode, from `typedef enum {INTERP_LINEAR, INTERP_QUADRATIC}`. -/
inductive interp_t
  | INTERP_LINEAR
  | INTERP_QUADRATIC
deriving DecidableEq, Repr

/-- Swept wave shape (`sox_wave_t`, from sox_i.h): sine or triangle. -/
inductive sox_wave_t
  | SOX_WAVE_SINE
  | SOX_WAVE_TRIANGLE
deriving DecidableEq, Repr

/-- Channel cap, from `#define MAX_CHANNELS 4`. -/
def MAX_CHANNELS : ℕ := 4

/-- Conversion of a non-negative double to an unsigned integer type
(truncation toward zero), as in C assignments such as
`f->delay_buf_length = ... + 0.5;`. -/
def truncNat (x : ℚ) : ℕ := (⌊x⌋).toNat

/-- Round to the nearest integer, halves up: the spec's `round`, and the
value that C's `(sox_size_t)(x + .5)` produces for non-negative `x`. -/
def rnd (x : ℚ) : ℤ := ⌊x + 1/2⌋

/-- Parameters as left by `sox_flanger_getopts`: the eight positional
values, still in their user units (ms, percent, Hz). -/
structure params where
  delay_min : ℚ
  delay_depth : ℚ
  feedback_gain : ℚ
  delay_gain : ℚ
  speed : ℚ
  wave_shape : sox_wave_t
  channel_phase : ℚ
  interpolation : interp_t
deriving DecidableEq, Repr

/-- The ranges enforced by the `NUMERIC_PARAMETER` lines of
`sox_flanger_getopts`: delay 0..10 ms, depth 0..10 ms, regen -95..95 %,
width 0..100 %, speed 0.1..10 Hz, phase 0..100 %. -/
def params.valid (p : params) : Prop :=
  0 ≤ p.delay_min ∧ p.delay_min ≤ 10 ∧
  0 ≤ p.delay_depth ∧ p.delay_depth ≤ 10 ∧
  -95 ≤ p.feedback_gain ∧ p.feedback_gain ≤ 95 ∧
  0 ≤ p.delay_gain ∧ p.delay_gain ≤ 100 ∧
  1/10 ≤ p.speed ∧ p.speed ≤ 10 ∧
  0 ≤ p.channel_phase ∧ p.channel_phase ≤ 100

instance (p : params) : Decidable p.valid := by
  unfold params.valid; infer_instance

/-- The flanger private data (`struct flanger`) after `sox_flanger_start`:
parameters already scaled to unity, allocated delay buffers (one list per
channel) and LFO table, cursors, and the balanced input gain. -/
structure flanger where
  delay_min : ℚ
  delay_depth : ℚ
  feedback_gain : ℚ
  delay_gain : ℚ
  speed : ℚ
  wave_shape : sox_wave_t
  channel_phase : ℚ
  interpolation : interp_t
  delay_bufs : List (List ℚ)
  delay_buf_length : ℕ
  delay_buf_pos : ℕ
  delay_last : List ℚ
  lfo : List ℚ
  lfo_length : ℕ
  lfo_pos : ℕ
  in_gain : ℚ
deriving DecidableEq, Repr

/-- The state built by a successful `sox_flanger_start` (the body after the
channel check).  `gen` abstracts the external collaborator
`sox_generate_wave_table(shape, SOX_FLOAT, buf, len, min, max, 3*M_PI_2)`:
it is given the shape, the table length, and the minimum and maximum delay
in samples, and returns the table contents (the constant initial phase
3π/2 is omitted from the abstract signature).  `delay_buf_pos`, `lfo_pos`
and `delay_last` are zero because the effect's private data is
zero-initialized by the host before `getopts`/`start` run and `start` does
not write them. -/
def startState (gen : sox_wave_t → ℕ → ℚ → ℚ → List ℚ)
    (p : params) (rate : ℚ) (channels : ℕ) : flanger :=
  let feedback_gain := p.feedback_gain / 100
  let delay_gain0 := p.delay_gain / 100
  let channel_phase := p.channel_phase / 100
  let in_gain := 1 / (1 + delay_gain0)
  let delay_gain1 := delay_gain0 / (1 + delay_gain0)
  let delay_gain := delay_gain1 * (1 - |feedback_gain|)
  let delay_buf_length :=
    truncNat ((p.delay_min + p.delay_depth) / 1000 * rate + 1/2) + 1 + 1
  let lfo_length := truncNat (rate / p.speed)
  { delay_min := p.delay_min
    delay_depth := p.delay_depth
    feedback_gain := feedback_gain
    delay_gain := delay_gain
    speed := p.speed
    wave_shape := p.wave_shape
    channel_phase := channel_phase
    interpolation := p.interpolation
    delay_bufs := List.replicate channels (List.replicate delay_buf_length 0)
    delay_buf_length := delay_buf_length
    delay_buf_pos := 0
    delay_last := List.replicate MAX_CHANNELS 0
    lfo := gen p.wave_shape lfo_length
             ((truncNat (p.delay_min / 1000 * rate + 1/2) : ℕ) : ℚ)
             ((delay_buf_length - 2 : ℕ) : ℚ)
    lfo_length := lfo_length
    lfo_pos := 0
    in_gain := in_gain }

/-- `sox_flanger_start`: fails (returns `SOX_EOF`, here `.error ()`) when
`channels > MAX_CHANNELS`, before any buffer is created; otherwise scales
the percent parameters to unity, balances the gains, allocates the delay
buffers and the LFO table, and succeeds. -/
def sox_flanger_start (gen : sox_wave_t → ℕ → ℚ → ℚ → List ℚ)
    (p : params) (rate : ℚ) (channels : ℕ) : Except Unit flanger :=
  if MAX_CHANNELS < channels then .error ()
  else .ok (startState gen p rate channels)

/-- Modelled from the spec: the output sample representation is the
32-bit signed `sox_ssample_t`; `SOX_SAMPLE_MAX` is its largest value. -/
def SOX_SAMPLE_MAX : ℤ := 2 ^ 31 - 1

/-- Modelled from the spec: smallest `sox_ssample_t` value. -/
def SOX_SAMPLE_MIN : ℤ := -(2 ^ 31)

/-- Modelled from the spec: `SOX_ROUND_CLIP_COUNT` (defined in sox.h, which
is not part of this repository) clips a value to the sample range,
incrementing the clip counter on saturation (non-fatal), and otherwise
rounds it to the nearest integer (halves away from zero). -/
def roundClipCount (x : ℚ) (clips : ℕ) : ℤ × ℕ :=
  if (SOX_SAMPLE_MAX : ℚ) + 1/2 ≤ x then (SOX_SAMPLE_MAX, clips + 1)
  else if x ≤ (SOX_SAMPLE_MIN : ℚ) - 1/2 then (SOX_SAMPLE_MIN, clips + 1)
  else if 0 ≤ x then (⌊x + 1/2⌋, clips) else (⌈x - 1/2⌉, clips)

/-- The per-channel LFO phase offset computed each frame:
`sox_size_t channel_phase = c * f->lfo_length * f->channel_phase + .5;`. -/
def lfo_offset (f : flanger) (c : ℕ) : ℕ :=
  truncNat ((c : ℚ) * (f.lfo_length : ℚ) * f.channel_phase + 1/2)

/-- The defined part of the per-channel loop body of `sox_flanger_flow`
for channel `c` and input sample `x`: read the LFO delay and split it into
integer and fractional parts (`modf` plus the `(size_t)` conversion),
write `in + delay_last[c] * feedback_gain` at the current buffer position,
fetch two (linear) or three (quadratic) taps, interpolate at the
fractional delay, store the result in `delay_last[c]`, and emit the
clipped-and-rounded mix `in * in_gain + delayed * delay_gain`. -/
def flow_channel_core (f : flanger) (c : ℕ) (x : ℤ) (clips : ℕ) :
    flanger × ℤ × ℕ :=
  let delay := f.lfo.getD ((f.lfo_pos + lfo_offset f c) % f.lfo_length) 0
  let frac_delay := Int.fract delay
  let int_delay := (⌊delay⌋).toNat
  let buf := (f.delay_bufs.getD c []).set f.delay_buf_pos
               ((x : ℚ) + f.delay_last.getD c 0 * f.feedback_gain)
  let delayed_0 := buf.getD ((f.delay_buf_pos + int_delay) % f.delay_buf_length) 0
  let delayed_1 := buf.getD ((f.delay_buf_pos + int_delay + 1) % f.delay_buf_length) 0
  let delayed :=
    match f.interpolation with
    | .INTERP_LINEAR => delayed_0 + (delayed_1 - delayed_0) * frac_delay
    | .INTERP_QUADRATIC =>
      let delayed_2 :=
        buf.getD ((f.delay_buf_pos + int_delay + 2) % f.delay_buf_length) 0
          - delayed_0
      let d1 := delayed_1 - delayed_0
      let a := delayed_2 * (1/2) - d1
      let b := d1 * 2 - delayed_2 * (1/2)
      delayed_0 + (a * frac_delay + b) * frac_delay
  let rc := roundClipCount ((x : ℚ) * f.in_gain + delayed * f.delay_gain) clips
  ({ f with delay_bufs := f.delay_bufs.set c buf,
            delay_last := f.delay_last.set c delayed }, rc.1, rc.2)

/-- The per-channel loop body of `sox_flanger_flow`.  Returns `none`
exactly where the C code has undefined behaviour: a `% f->lfo_length` or
`% f->delay_buf_length` with a zero divisor, or the `(size_t)delay`
conversion of a negative LFO value (the external generator only produces
non-negative delays); otherwise runs `flow_channel_core`. -/
def flow_channel (f : flanger) (c : ℕ) (x : ℤ) (clips : ℕ) :
    Option (flanger × ℤ × ℕ) :=
  if f.lfo_length = 0 ∨ f.delay_buf_length = 0 then none
  else if f.lfo.getD ((f.lfo_pos + lfo_offset f c) % f.lfo_length) 0 < 0 then none
  else some (flow_channel_core f c x clips)

/-- The `for (c = 0; c < channels; ++c)` loop of one frame: one input
sample per channel, starting at channel `c`; yields one output sample per
input sample. -/
def flow_chans : flanger → ℕ → ℕ → List ℤ → Option (flanger × List ℤ × ℕ)
  | f, clips, _, [] => some (f, [], clips)
  | f, clips, c, x :: xs =>
    match flow_channel f c x clips with
    | none => none
    | some (f1, o, clips1) =>
      match flow_chans f1 clips1 (c + 1) xs with
      | none => none
      | some (f2, os, clips2) => some (f2, o :: os, clips2)

/-- One iteration of the `while (len--)` loop of `sox_flanger_flow`:
rotate the delay-buffer write position (decrement modulo length, before
any per-channel work), run the channel loop on this frame's samples, then
advance the LFO read cursor modulo the table length.  `none` models the
undefined modulo when a buffer length is zero. -/
def flow_frame (f : flanger) (clips : ℕ) (ins : List ℤ) :
    Option (flanger × List ℤ × ℕ) :=
  if f.delay_buf_length = 0 then none
  else
    let f1 := { f with delay_buf_pos :=
                  (f.delay_buf_pos + f.delay_buf_length - 1) % f.delay_buf_length }
    match flow_chans f1 clips 0 ins with
    | none => none
    | some (f2, os, clips2) =>
      if f2.lfo_length = 0 then none
      else some ({ f2 with lfo_pos := (f2.lfo_pos + 1) % f2.lfo_length }, os, clips2)

/-- The `while (len--)` loop: process `len` frames, each consuming
`channels` input samples. -/
def flow_loop (channels : ℕ) : ℕ → flanger → ℕ → List ℤ → Option (flanger × List ℤ × ℕ)
  | 0, f, clips, _ => some (f, [], clips)
  | n + 1, f, clips, ins =>
    match flow_frame f clips (ins.take channels) with
    | none => none
    | some (f1, os, clips1) =>
      match flow_loop channels n f1 clips1 (ins.drop channels) with
      | none => none
      | some (f2, os2, clips2) => some (f2, os ++ os2, clips2)

/-- `sox_flanger_flow`: computes `len = min(*isamp, *osamp) / channels`,
sets `*isamp = *osamp = len * channels`, and runs the frame loop.  The
input buffer is the list `ibuf` (so `*isamp` on entry is `ibuf.length`);
the result carries the final state, the output samples, the clip counter,
and the common consumed/produced sample count `len * channels`. -/
def sox_flanger_flow (channels : ℕ) (f : flanger) (clips : ℕ)
    (ibuf : List ℤ) (osamp : ℕ) : Option (flanger × List ℤ × ℕ × ℕ) :=
  let len := min ibuf.length osamp / channels
  match flow_loop channels len f clips ibuf with
  | none => none
  | some (f2, os, clips2) => some (f2, os, clips2, len * channels)

/-- The wave generator used for concrete test instances: an all-zero
table of the requested length (the real generator is external to this
repository; no claim depends on the table values beyond their sign). -/
def gen0 : sox_wave_t → ℕ → ℚ → ℚ → List ℚ :=
  fun _ n _ _ => List.replicate n 0

/-- A placeholder state, used only as the default of `startOrJunk`. -/
def junkFlanger : flanger :=
  { delay_min := 0, delay_depth := 0, feedback_gain := 0, delay_gain := 0,
    speed := 1, wave_shape := .SOX_WAVE_SINE, channel_phase := 0,
    interpolation := .INTERP_LINEAR, delay_bufs := [], delay_buf_length := 0,
    delay_buf_pos := 0, delay_last := [], lfo := [], lfo_length := 0,
    lfo_pos := 0, in_gain := 1 }

/-- The state produced by a successful `sox_flanger_start`, as a total
function (used to name concrete started states in closed statements). -/
def startOrJunk (gen : sox_wave_t → ℕ → ℚ → ℚ → List ℚ)
    (p : params) (rate : ℚ) (channels : ℕ) : flanger :=
  match sox_flanger_start gen p rate channels with
  | .ok s => s
  | .error _ => junkFlanger

/-- Two flanger states agree on every configuration-time field: the eight
scaled parameters, the two buffer lengths, the balanced input gain, and
the LFO table contents.  Streaming may change only the complement: the
delay-buffer contents, the write position, the LFO read cursor, the
per-channel feedback memory, and the clip counter. -/
def sameConf (f g : flanger) : Prop :=
  f.delay_min = g.delay_min ∧ f.delay_depth = g.delay_depth ∧
  f.feedback_gain = g.feedback_gain ∧ f.delay_gain = g.delay_gain ∧
  f.speed = g.speed ∧ f.wave_shape = g.wave_shape ∧
  f.channel_phase = g.channel_phase ∧ f.interpolation = g.interpolation ∧
  f.delay_buf_length = g.delay_buf_length ∧ f.lfo_length = g.lfo_length ∧
  f.in_gain = g.in_gain ∧ f.lfo = g.lfo

/-- The default configuration: delay 0 ms, depth 2 ms, regen 0 %,
width 71 %, speed 0.5 Hz, sine, phase 25 %, linear interpolation. -/
def cfgDefault : params :=
  params.mk 0 2 0 71 (1/2) .SOX_WAVE_SINE 25 .INTERP_LINEAR

/-- Default configuration at the maximum sweep speed of 10 Hz. -/
def cfgFast : params :=
  params.mk 0 2 0 71 10 .SOX_WAVE_SINE 25 .INTERP_LINEAR

/-- Default configuration with sweep speed 3 Hz. -/
def cfgSpeed3 : params :=
  params.mk 0 2 0 71 3 .SOX_WAVE_SINE 25 .INTERP_LINEAR

/-- Default configuration with 50 % regeneration (feedback). -/
def cfgFb50 : params :=
  params.mk 0 2 50 71 (1/2) .SOX_WAVE_SINE 25 .INTERP_LINEAR

/-- Configuration with depth 0, feedback 0 and mix (width) 0. -/
def cfgZeroMix : params :=
  params.mk 0 0 0 0 (1/2) .SOX_WAVE_SINE 25 .INTERP_LINEAR

/-- Default configuration with speed 1 Hz and channel phase 50 %. -/
def cfgPhase50 : params :=
  params.mk 0 2 0 71 1 .SOX_WAVE_SINE 50 .INTERP_LINEAR

/-- Configuration with both base delay and swept depth equal to 0 ms. -/
def cfgZeroDepth : params :=
  params.mk 0 0 0 71 (1/2) .SOX_WAVE_SINE 25 .INTERP_LINEAR

/-- A minimal well-formed streaming state: both lengths positive, empty
LFO table. -/
def flowReadyState : flanger :=
  { junkFlanger with lfo_length := 1, delay_buf_length := 1 }

/-- Evaluation rule for `truncNat` from rational bounds. -/
lemma truncNat_eq {x : ℚ} {n : ℕ} (h1 : (n : ℚ) ≤ x) (h2 : x < n + 1) :
    truncNat x = n := by
  unfold truncNat
  have : ⌊x⌋ = (n : ℤ) := by
    rw [Int.floor_eq_iff]
    refine ⟨by exact_mod_cast h1, by exact_mod_cast h2⟩
  rw [this]
  simp

/-- Evaluation rule for `rnd` from rational bounds. -/
lemma rnd_eq {x : ℚ} {n : ℤ} (h1 : (n : ℚ) ≤ x + 1/2) (h2 : x + 1/2 < n + 1) :
    rnd x = n := by
  unfold rnd
  rw [Int.floor_eq_iff]
  exact ⟨h1, by exact_mod_cast h2⟩

lemma sameConf_refl (f : flanger) : sameConf f f := by
  simp [sameConf]

lemma sameConf_trans {a b c : flanger} (h1 : sameConf a b) (h2 : sameConf b c) :
    sameConf a c := by
  obtain ⟨a1, a2, a3, a4, a5, a6, a7, a8, a9, a10, a11, a12⟩ := h1
  obtain ⟨b1, b2, b3, b4, b5, b6, b7, b8, b9, b10, b11, b12⟩ := h2
  exact ⟨a1.trans b1, a2.trans b2, a3.trans b3, a4.trans b4, a5.trans b5,
    a6.trans b6, a7.trans b7, a8.trans b8, a9.trans b9, a10.trans b10,
    a11.trans b11, a12.trans b12⟩

lemma start_ok_state {gen : sox_wave_t → ℕ → ℚ → ℚ → List ℚ} {p : params}
    {rate : ℚ} {channels : ℕ} {s : flanger}
    (hok : sox_flanger_start gen p rate channels = .ok s) :
    s = startState gen p rate channels := by
  unfold sox_flanger_start at hok
  split at hok
  · exact absurd hok (by simp)
  · exact (Except.ok.inj hok).symm

lemma getD_nonneg {l : List ℚ} (h : ∀ v ∈ l, 0 ≤ v) (i : ℕ) : 0 ≤ l.getD i 0 := by
  induction l generalizing i with
  | nil => simp [List.getD_nil]
  | cons a t ih =>
    cases i with
    | zero => simpa using h a (List.mem_cons_self a t)
    | succ n =>
      simp only [List.getD_cons_succ]
      exact ih (fun v hv => h v (List.mem_cons_of_mem a hv)) n

lemma flow_channel_core_state (f : flanger) (c : ℕ) (x : ℤ) (clips : ℕ) :
    sameConf (flow_channel_core f c x clips).1 f := by
  simp [flow_channel_core, sameConf]

lemma flow_channel_sameConf {f f1 : flanger} {c : ℕ} {x : ℤ} {clips : ℕ}
    {o : ℤ} {clips1 : ℕ}
    (h : flow_channel f c x clips = some (f1, o, clips1)) : sameConf f1 f := by
  unfold flow_channel at h
  split at h
  · exact absurd h (by simp)
  · split at h
    · exact absurd h (by simp)
    · simp only [Option.some.injEq] at h
      have h1 : (flow_channel_core f c x clips).1 = f1 := by rw [h]
      rw [← h1]
      exact flow_channel_core_state f c x clips

lemma flow_chans_sameConf : ∀ {xs : List ℤ} {f : flanger} {clips c : ℕ}
    {f2 : flanger} {os : List ℤ} {clips2 : ℕ},
    flow_chans f clips c xs = some (f2, os, clips2) → sameConf f2 f := by
  intro xs
  induction xs with
  | nil =>
    intro f clips c f2 os clips2 h
    simp only [flow_chans, Option.some.injEq, Prod.mk.injEq] at h
    obtain ⟨h1, -, -⟩ := h
    rw [← h1]
    exact sameConf_refl f
  | cons x xs ih =>
    intro f clips c f2 os clips2 h
    simp only [flow_chans] at h
    cases hc : flow_channel f c x clips with
    | none => simp only [hc] at h; exact Option.noConfusion h
    | some r =>
      obtain ⟨f1, o, clips1⟩ := r
      simp only [hc] at h
      cases hcs : flow_chans f1 clips1 (c + 1) xs with
      | none => simp only [hcs] at h; exact Option.noConfusion h
      | some r2 =>
        obtain ⟨f3, os3, clips3⟩ := r2
        simp only [hcs] at h
        simp only [Option.some.injEq, Prod.mk.injEq] at h
        obtain ⟨h1, -, -⟩ := h
        rw [← h1]
        exact sameConf_trans (ih hcs) (flow_channel_sameConf hc)

lemma flow_frame_sameConf {f : flanger} {clips : ℕ} {ins : List ℤ}
    {f2 : flanger} {os : List ℤ} {clips2 : ℕ}
    (h : flow_frame f clips ins = some (f2, os, clips2)) : sameConf f2 f := by
  unfold flow_frame at h
  split at h
  · exact absurd h (by simp)
  · cases hc : flow_chans
        { f with delay_buf_pos :=
            (f.delay_buf_pos + f.delay_buf_length - 1) % f.delay_buf_length }
        clips 0 ins with
    | none => simp only [hc] at h; exact Option.noConfusion h
    | some r =>
      obtain ⟨f3, os3, clips3⟩ := r
      simp only [hc] at h
      split at h
      · exact absurd h (by simp)
      · simp only [Option.some.injEq, Prod.mk.injEq] at h
        obtain ⟨h1, -, -⟩ := h
        rw [← h1]
        have hmid := flow_chans_sameConf hc
        have hrot : sameConf
            { f with delay_buf_pos :=
                (f.delay_buf_pos + f.delay_buf_length - 1) % f.delay_buf_length } f := by
          simp [sameConf]
        have hout : sameConf { f3 with lfo_pos := (f3.lfo_pos + 1) % f3.lfo_length } f3 := by
          simp [sameConf]
        exact sameConf_trans (sameConf_trans hout hmid) hrot

lemma flow_loop_sameConf : ∀ {n : ℕ} {channels : ℕ} {f : flanger} {clips : ℕ}
    {ins : List ℤ} {f2 : flanger} {os : List ℤ} {clips2 : ℕ},
    flow_loop channels n f clips ins = some (f2, os, clips2) → sameConf f2 f := by
  intro n
  induction n with
  | zero =>
    intro channels f clips ins f2 os clips2 h
    simp only [flow_loop, Option.some.injEq, Prod.mk.injEq] at h
    obtain ⟨h1, -, -⟩ := h
    rw [← h1]
    exact sameConf_refl f
  | succ n ih =>
    intro channels f clips ins f2 os clips2 h
    simp only [flow_loop] at h
    cases hc : flow_frame f clips (ins.take channels) with
    | none => simp only [hc] at h; exact Option.noConfusion h
    | some r =>
      obtain ⟨f1, os1, clips1⟩ := r
      simp only [hc] at h
      cases hl : flow_loop channels n f1 clips1 (ins.drop channels) with
      | none => simp only [hl] at h; exact Option.noConfusion h
      | some r2 =>
        obtain ⟨f3, os3, clips3⟩ := r2
        simp only [hl] at h
        simp only [Option.some.injEq, Prod.mk.injEq] at h
        obtain ⟨h1, -, -⟩ := h
        rw [← h1]
        exact sameConf_trans (ih hl) (flow_frame_sameConf hc)

lemma sameConf_fields {f g : flanger} (h : sameConf f g) :
    f.delay_buf_length = g.delay_buf_length ∧ f.lfo_length = g.lfo_length ∧
    f.in_gain = g.in_gain ∧ f.delay_gain = g.delay_gain ∧ f.lfo = g.lfo := by
  obtain ⟨-, -, -, h4, -, -, -, -, h9, h10, h11, h12⟩ := h
  exact ⟨h9, h10, h11, h4, h12⟩

lemma flow_channel_total (f : flanger) (c : ℕ) (x : ℤ) (clips : ℕ)
    (hL : f.lfo_length ≠ 0) (hB : f.delay_buf_length ≠ 0)
    (hlfo : ∀ v ∈ f.lfo, 0 ≤ v) :
    flow_channel f c x clips = some (flow_channel_core f c x clips) := by
  unfold flow_channel
  rw [if_neg (by simp [hL, hB]), if_neg (not_lt.mpr (getD_nonneg hlfo _))]

lemma flow_chans_total : ∀ (xs : List ℤ) (f : flanger) (clips c : ℕ),
    f.lfo_length ≠ 0 → f.delay_buf_length ≠ 0 → (∀ v ∈ f.lfo, 0 ≤ v) →
    ∃ f2 os clips2, flow_chans f clips c xs = some (f2, os, clips2) ∧
      os.length = xs.length := by
  intro xs
  induction xs with
  | nil => intro f clips c hL hB hlfo; exact ⟨f, [], clips, rfl, rfl⟩
  | cons x xs ih =>
    intro f clips c hL hB hlfo
    have hch := flow_channel_total f c x clips hL hB hlfo
    rcases e : flow_channel_core f c x clips with ⟨f1, o, clips1⟩
    rw [e] at hch
    have hsc := sameConf_fields (flow_channel_sameConf hch)
    obtain ⟨hB1, hL1, -, -, hlfo1⟩ := hsc
    obtain ⟨f2, os, clips2, hrec, hlen⟩ := ih f1 clips1 (c + 1)
      (by rw [hL1]; exact hL) (by rw [hB1]; exact hB) (by rw [hlfo1]; exact hlfo)
    refine ⟨f2, o :: os, clips2, ?_, by simp [hlen]⟩
    simp only [flow_chans, hch, hrec]

lemma flow_frame_total (f : flanger) (clips : ℕ) (ins : List ℤ)
    (hL : f.lfo_length ≠ 0) (hB : f.delay_buf_length ≠ 0)
    (hlfo : ∀ v ∈ f.lfo, 0 ≤ v) :
    ∃ f2 os clips2, flow_frame f clips ins = some (f2, os, clips2) ∧
      os.length = ins.length := by
  obtain ⟨f2, os, clips2, hc, hlen⟩ := flow_chans_total ins
    { f with delay_buf_pos :=
        (f.delay_buf_pos + f.delay_buf_length - 1) % f.delay_buf_length }
    clips 0 hL hB hlfo
  have hsc := sameConf_fields (flow_chans_sameConf hc)
  obtain ⟨-, hL2, -, -, -⟩ := hsc
  refine ⟨{ f2 with lfo_pos := (f2.lfo_pos + 1) % f2.lfo_length }, os, clips2, ?_, hlen⟩
  unfold flow_frame
  rw [if_neg hB]
  simp only [hc]
  rw [if_neg (by rw [hL2]; exact hL)]

lemma flow_loop_total : ∀ (n : ℕ) (channels : ℕ) (f : flanger) (clips : ℕ) (ins : List ℤ),
    f.lfo_length ≠ 0 → f.delay_buf_length ≠ 0 → (∀ v ∈ f.lfo, 0 ≤ v) →
    ∃ f2 os clips2, flow_loop channels n f clips ins = some (f2, os, clips2) ∧
      os.length = min (n * channels) ins.length := by
  intro n
  induction n with
  | zero => intro channels f clips ins hL hB hlfo; exact ⟨f, [], clips, rfl, by simp⟩
  | succ n ih =>
    intro channels f clips ins hL hB hlfo
    obtain ⟨f1, os1, clips1, hf, hlen1⟩ :=
      flow_frame_total f clips (ins.take channels) hL hB hlfo
    have hsc := sameConf_fields (flow_frame_sameConf hf)
    obtain ⟨hB1, hL1, -, -, hlfo1⟩ := hsc
    obtain ⟨f2, os2, clips2, hl, hlen2⟩ := ih channels f1 clips1 (ins.drop channels)
      (by rw [hL1]; exact hL) (by rw [hB1]; exact hB) (by rw [hlfo1]; exact hlfo)
    refine ⟨f2, os1 ++ os2, clips2, ?_, ?_⟩
    · simp only [flow_loop, hf, hl]
    · rw [List.length_append, hlen1, hlen2, List.length_take, List.length_drop,
        Nat.succ_mul]
      generalize n * channels = m
      omega

lemma roundClipCount_int {x : ℤ} (h1 : SOX_SAMPLE_MIN ≤ x) (h2 : x ≤ SOX_SAMPLE_MAX)
    (clips : ℕ) : roundClipCount (x : ℚ) clips = (x, clips) := by
  have hc1 : ((SOX_SAMPLE_MIN : ℚ)) ≤ (x : ℚ) := by exact_mod_cast h1
  have hc2 : ((x : ℚ)) ≤ (SOX_SAMPLE_MAX : ℚ) := by exact_mod_cast h2
  unfold roundClipCount
  rw [if_neg (by linarith), if_neg (by linarith)]
  rcases le_or_lt 0 x with hx | hx
  · rw [if_pos (by exact_mod_cast hx)]
    have : ⌊(x : ℚ) + 1/2⌋ = x := by
      rw [show ((x : ℚ) + 1/2) = (1/2 : ℚ) + (x : ℤ) by ring,
        Int.floor_add_int]
      have : ⌊(1/2 : ℚ)⌋ = 0 := by rw [Int.floor_eq_iff]; norm_num
      rw [this]; ring
    rw [this]
  · rw [if_neg (by simp only [not_le]; exact_mod_cast hx)]
    have : ⌈(x : ℚ) - 1/2⌉ = x := by
      rw [show ((x : ℚ) - 1/2) = (-(1/2) : ℚ) + (x : ℤ) by ring,
        Int.ceil_add_int]
      have : ⌈(-(1/2) : ℚ)⌉ = 0 := by rw [Int.ceil_eq_iff]; norm_num
      rw [this]; ring
    rw [this]

lemma flow_channel_core_passthru (f : flanger) (c : ℕ) (x : ℤ) (clips : ℕ)
    (hg : f.in_gain = 1) (hd : f.delay_gain = 0)
    (h1 : SOX_SAMPLE_MIN ≤ x) (h2 : x ≤ SOX_SAMPLE_MAX) :
    (flow_channel_core f c x clips).2.1 = x ∧
    (flow_channel_core f c x clips).2.2 = clips := by
  simp only [flow_channel_core, hg, hd, mul_one, mul_zero, add_zero,
    roundClipCount_int h1 h2]
  constructor <;> trivial

lemma flow_chans_passthru : ∀ (xs : List ℤ) (f : flanger) (clips c : ℕ),
    f.in_gain = 1 → f.delay_gain = 0 →
    f.lfo_length ≠ 0 → f.delay_buf_length ≠ 0 → (∀ v ∈ f.lfo, 0 ≤ v) →
    (∀ x ∈ xs, SOX_SAMPLE_MIN ≤ x ∧ x ≤ SOX_SAMPLE_MAX) →
    ∃ f2, flow_chans f clips c xs = some (f2, xs, clips) ∧ sameConf f2 f := by
  intro xs
  induction xs with
  | nil => intro f clips c _ _ _ _ _ _; exact ⟨f, rfl, sameConf_refl f⟩
  | cons x xs ih =>
    intro f clips c hg hd hL hB hlfo hin
    have hch := flow_channel_total f c x clips hL hB hlfo
    have hx := hin x (List.mem_cons_self x xs)
    have hpass := flow_channel_core_passthru f c x clips hg hd hx.1 hx.2
    rcases e : flow_channel_core f c x clips with ⟨f1, o, clips1⟩
    rw [e] at hch hpass
    obtain ⟨ho, hclips⟩ := hpass
    simp at ho hclips
    subst ho
    subst hclips
    have hsc := flow_channel_sameConf hch
    obtain ⟨hB1, hL1, hg1, hd1, hlfo1⟩ := sameConf_fields hsc
    obtain ⟨f2, hrec, hsc2⟩ := ih f1 clips1 (c + 1)
      (by rw [hg1]; exact hg) (by rw [hd1]; exact hd)
      (by rw [hL1]; exact hL) (by rw [hB1]; exact hB) (by rw [hlfo1]; exact hlfo)
      (fun y hy => hin y (List.mem_cons_of_mem o hy))
    refine ⟨f2, ?_, sameConf_trans hsc2 hsc⟩
    simp only [flow_chans, hch, hrec]

lemma flow_frame_passthru (f : flanger) (clips : ℕ) (ins : List ℤ)
    (hg : f.in_gain = 1) (hd : f.delay_gain = 0)
    (hL : f.lfo_length ≠ 0) (hB : f.delay_buf_length ≠ 0) (hlfo : ∀ v ∈ f.lfo, 0 ≤ v)
    (hin : ∀ x ∈ ins, SOX_SAMPLE_MIN ≤ x ∧ x ≤ SOX_SAMPLE_MAX) :
    ∃ f2, flow_frame f clips ins = some (f2, ins, clips) ∧ sameConf f2 f := by
  obtain ⟨f2, hc, hsc⟩ := flow_chans_passthru ins
    { f with delay_buf_pos :=
        (f.delay_buf_pos + f.delay_buf_length - 1) % f.delay_buf_length }
    clips 0 hg hd hL hB hlfo hin
  obtain ⟨-, hL2, -, -, -⟩ := sameConf_fields hsc
  refine ⟨{ f2 with lfo_pos := (f2.lfo_pos + 1) % f2.lfo_length }, ?_, ?_⟩
  · unfold flow_frame
    rw [if_neg hB]
    simp only [hc]
    rw [if_neg (by rw [hL2]; exact hL)]
  · have h1 : sameConf { f2 with lfo_pos := (f2.lfo_pos + 1) % f2.lfo_length } f2 := by
      simp [sameConf]
    have h2 : sameConf
        { f with delay_buf_pos :=
            (f.delay_buf_pos + f.delay_buf_length - 1) % f.delay_buf_length } f := by
      simp [sameConf]
    exact sameConf_trans (sameConf_trans h1 hsc) h2

lemma flow_loop_passthru : ∀ (n : ℕ) (channels : ℕ) (f : flanger) (clips : ℕ)
    (ins : List ℤ),
    f.in_gain = 1 → f.delay_gain = 0 →
    f.lfo_length ≠ 0 → f.delay_buf_length ≠ 0 → (∀ v ∈ f.lfo, 0 ≤ v) →
    (∀ x ∈ ins, SOX_SAMPLE_MIN ≤ x ∧ x ≤ SOX_SAMPLE_MAX) →
    ∃ f2, flow_loop channels n f clips ins = some (f2, ins.take (n * channels), clips) ∧
      sameConf f2 f := by
  intro n
  induction n with
  | zero =>
    intro channels f clips ins _ _ _ _ _ _
    exact ⟨f, by simp [flow_loop], sameConf_refl f⟩
  | succ n ih =>
    intro channels f clips ins hg hd hL hB hlfo hin
    obtain ⟨f1, hf, hsc1⟩ := flow_frame_passthru f clips (ins.take channels)
      hg hd hL hB hlfo (fun y hy => hin y (List.take_subset channels ins hy))
    obtain ⟨hB1, hL1, hg1, hd1, hlfo1⟩ := sameConf_fields hsc1
    obtain ⟨f2, hl, hsc2⟩ := ih channels f1 clips (ins.drop channels)
      (by rw [hg1]; exact hg) (by rw [hd1]; exact hd)
      (by rw [hL1]; exact hL) (by rw [hB1]; exact hB) (by rw [hlfo1]; exact hlfo)
      (fun y hy => hin y (List.drop_subset channels ins hy))
    refine ⟨f2, ?_, sameConf_trans hsc2 hsc1⟩
    simp only [flow_loop, hf, hl]
    rw [show (n + 1) * channels = channels + n * channels by ring, List.take_add]

lemma truncNat_floor (x : ℚ) (hx : 0 ≤ x) : (truncNat x : ℤ) = ⌊x⌋ :=
  Int.toNat_of_nonneg (Int.floor_nonneg.mpr hx)

lemma truncNat_rnd (x : ℚ) (hx : 0 ≤ x) : (truncNat (x + 1/2) : ℤ) = rnd x := by
  unfold rnd
  exact truncNat_floor (x + 1/2) (by linarith)

lemma rnd_near (x : ℚ) : |((rnd x : ℤ) : ℚ) - x| ≤ 1/2 := by
  unfold rnd
  have h1 := Int.floor_le (x + 1/2)
  have h2 := Int.lt_floor_add_one (x + 1/2)
  rw [abs_le]
  constructor
  · push_cast at h2 ⊢; linarith
  · push_cast at h1 ⊢; linarith

lemma gen0_nonneg : ∀ sh n lo hi, ∀ v ∈ gen0 sh n lo hi, 0 ≤ v := by
  intro sh n lo hi v hv
  simp only [gen0] at hv
  rw [List.eq_of_mem_replicate hv]

/-- Claim C9: for every channel count greater than 4 and any parameters,
`sox_flanger_start` fails with the channel-limit error (`SOX_EOF`) before
any delay buffer or LFO table is allocated; the failure is fatal for the
instance. -/
theorem start_channel_limit (gen : sox_wave_t → ℕ → ℚ → ℚ → List ℚ)
    (p : params) (rate : ℚ) (channels : ℕ) (h : MAX_CHANNELS < channels) :
    sox_flanger_start gen p rate channels = .error () := by
  unfold sox_flanger_start
  rw [if_pos h]

/-- Witness for claim C9 at `channels = 5`. -/
theorem start_channel_limit_witness :
    MAX_CHANNELS < 5 ∧ sox_flanger_start gen0 cfgDefault 44100 5 = .error () :=
  ⟨by norm_num [MAX_CHANNELS],
   start_channel_limit gen0 cfgDefault 44100 5 (by norm_num [MAX_CHANNELS])⟩

/-- Claim C4: after a successful start the derived gains are
`feedbackGain = feedbackPct/100`, `channelPhase = channelPhasePct/100`,
`inGain = 1/(1 + mixPct/100)`, and
`mixGain = (mixPct/100)/(1 + mixPct/100) * (1 - |feedbackGain|)`. -/
theorem start_gain_balance (gen : sox_wave_t → ℕ → ℚ → ℚ → List ℚ)
    (p : params) (rate : ℚ) (channels : ℕ) (s : flanger)
    (hok : sox_flanger_start gen p rate channels = .ok s) :
    s.feedback_gain = p.feedback_gain / 100 ∧
    s.channel_phase = p.channel_phase / 100 ∧
    s.in_gain = 1 / (1 + p.delay_gain / 100) ∧
    s.delay_gain = p.delay_gain / 100 / (1 + p.delay_gain / 100)
      * (1 - |p.feedback_gain / 100|) := by
  have hs := start_ok_state hok
  subst hs
  exact ⟨rfl, rfl, rfl, rfl⟩

/-- Witness for claim C4 at feedback 50 %, mix 71 %: the input gain is
100/171 = 1/1.71 and the mix gain is (71/171)·(1/2) = 71/342. -/
theorem start_gain_balance_witness :
    sox_flanger_start gen0 cfgFb50 1 1 = .ok (startOrJunk gen0 cfgFb50 1 1) ∧
    (startOrJunk gen0 cfgFb50 1 1).in_gain = 100 / 171 ∧
    (startOrJunk gen0 cfgFb50 1 1).delay_gain = 71 / 342 := by
  have happ := start_gain_balance gen0 cfgFb50 1 1 (startOrJunk gen0 cfgFb50 1 1) rfl
  refine ⟨rfl, ?_, ?_⟩
  · rw [happ.2.2.1]
    norm_num [cfgFb50]
  · rw [happ.2.2.2]
    rw [show |cfgFb50.feedback_gain / 100| = 1/2 by norm_num [cfgFb50]]
    norm_num [cfgFb50]

/-- Claim C3: after a successful start with valid parameters and
non-negative sample rate, the delay-line length is
`round((delayMinMs + delayDepthMs)/1000 · rate) + 2`, where the rounded
value is within 1/2 of the exact product. -/
theorem start_delay_buf_length_round (gen : sox_wave_t → ℕ → ℚ → ℚ → List ℚ)
    (p : params) (rate : ℚ) (channels : ℕ) (s : flanger)
    (hp : p.valid) (hr : 0 ≤ rate)
    (hok : sox_flanger_start gen p rate channels = .ok s) :
    (s.delay_buf_length : ℤ) =
      rnd ((p.delay_min + p.delay_depth) / 1000 * rate) + 2 ∧
    |(((s.delay_buf_length : ℤ) : ℚ) - 2) -
      (p.delay_min + p.delay_depth) / 1000 * rate| ≤ 1/2 := by
  obtain ⟨hdm0, -, hdd0, -⟩ := hp
  have hs := start_ok_state hok
  subst hs
  have hy : 0 ≤ (p.delay_min + p.delay_depth) / 1000 * rate :=
    mul_nonneg (div_nonneg (by linarith) (by norm_num)) hr
  have hfl := truncNat_rnd ((p.delay_min + p.delay_depth) / 1000 * rate) hy
  have hproj : (startState gen p rate channels).delay_buf_length =
      truncNat ((p.delay_min + p.delay_depth) / 1000 * rate + 1/2) + 1 + 1 := rfl
  constructor
  · rw [hproj]
    push_cast [hfl]
    ring
  · rw [hproj]
    have hnear := rnd_near ((p.delay_min + p.delay_depth) / 1000 * rate)
    have hc : ((truncNat ((p.delay_min + p.delay_depth) / 1000 * rate + 1/2) : ℤ) : ℚ)
        = ((rnd ((p.delay_min + p.delay_depth) / 1000 * rate) : ℤ) : ℚ) := by
      exact_mod_cast hfl
    push_cast
    push_cast at hc
    rw [show ((truncNat ((p.delay_min + p.delay_depth) / 1000 * rate + 1/2) : ℚ)
        + 1 + 1 - 2 : ℚ) =
      (truncNat ((p.delay_min + p.delay_depth) / 1000 * rate + 1/2) : ℚ) by ring]
    rw [hc]
    exact hnear

/-- Witness for claim C3 at rate 44100, delay 0 ms, depth 2 ms:
the delay-line length is round(88.2) + 2 = 90. -/
theorem start_delay_buf_length_round_witness :
    cfgDefault.valid ∧ (0 : ℚ) ≤ 44100 ∧
    ((startOrJunk gen0 cfgDefault 44100 2).delay_buf_length : ℤ) =
      rnd ((cfgDefault.delay_min + cfgDefault.delay_depth) / 1000 * 44100) + 2 ∧
    (startOrJunk gen0 cfgDefault 44100 2).delay_buf_length = 90 := by
  have hv : cfgDefault.valid := by unfold params.valid; norm_num [cfgDefault]
  have happ := start_delay_buf_length_round gen0 cfgDefault 44100 2
    (startOrJunk gen0 cfgDefault 44100 2) hv (by norm_num) rfl
  refine ⟨hv, by norm_num, happ.1, ?_⟩
  show (startState gen0 cfgDefault 44100 2).delay_buf_length = 90
  show truncNat ((cfgDefault.delay_min + cfgDefault.delay_depth) / 1000 * 44100 + 1/2)
    + 1 + 1 = 90
  rw [truncNat_eq (n := 88) (by norm_num [cfgDefault]) (by norm_num [cfgDefault])]

/-- Claim C2 (amended): after a successful start with valid parameters and
non-negative sample rate, the LFO table length is `⌊rate / speed⌋` — the
real quotient truncated toward zero, not rounded to the nearest integer:
`f->lfo_length = effp->ininfo.rate / f->speed;` has no `+ 0.5`. -/
theorem start_lfo_length_floor (gen : sox_wave_t → ℕ → ℚ → ℚ → List ℚ)
    (p : params) (rate : ℚ) (channels : ℕ) (s : flanger)
    (hp : p.valid) (hr : 0 ≤ rate)
    (hok : sox_flanger_start gen p rate channels = .ok s) :
    (s.lfo_length : ℤ) = ⌊rate / p.speed⌋ ∧
    ((s.lfo_length : ℤ) : ℚ) ≤ rate / p.speed ∧
    rate / p.speed < ((s.lfo_length : ℤ) : ℚ) + 1 := by
  have hsp : 0 < p.speed := by
    obtain ⟨-, -, -, -, -, -, -, -, hs1, -⟩ := hp
    linarith
  have hq : 0 ≤ rate / p.speed := div_nonneg hr (le_of_lt hsp)
  have hs := start_ok_state hok
  subst hs
  have hproj : (startState gen p rate channels).lfo_length
      = truncNat (rate / p.speed) := rfl
  rw [hproj]
  have hfl := truncNat_floor (rate / p.speed) hq
  refine ⟨hfl, ?_, ?_⟩
  · rw [hfl]
    exact Int.floor_le _
  · rw [hfl]
    exact Int.lt_floor_add_one _

/-- Witness for claim C2 (amended) at the default configuration,
rate 44100. -/
theorem start_lfo_length_floor_witness :
    cfgDefault.valid ∧ (0 : ℚ) ≤ 44100 ∧
    (((startOrJunk gen0 cfgDefault 44100 1).lfo_length : ℤ) : ℚ)
      ≤ 44100 / cfgDefault.speed ∧
    44100 / cfgDefault.speed
      < (((startOrJunk gen0 cfgDefault 44100 1).lfo_length : ℤ) : ℚ) + 1 := by
  have hv : cfgDefault.valid := by unfold params.valid; norm_num [cfgDefault]
  have happ := start_lfo_length_floor gen0 cfgDefault 44100 1
    (startOrJunk gen0 cfgDefault 44100 1) hv (by norm_num) rfl
  exact ⟨hv, by norm_num, happ.2.1, happ.2.2⟩

/-- Claim C2 counterexample: at the valid configuration with speed 3 Hz
and sample rate 8, the LFO table length is ⌊8/3⌋ = 2, not
round(8/3) = 3 as the claim states. -/
theorem start_lfo_length_not_round :
    cfgSpeed3.valid ∧
    sox_flanger_start gen0 cfgSpeed3 8 1 = .ok (startOrJunk gen0 cfgSpeed3 8 1) ∧
    (startOrJunk gen0 cfgSpeed3 8 1).lfo_length = 2 ∧
    rnd ((8 : ℚ) / cfgSpeed3.speed) = 3 ∧
    ((startOrJunk gen0 cfgSpeed3 8 1).lfo_length : ℤ) ≠ rnd ((8 : ℚ) / cfgSpeed3.speed) := by
  have hv : cfgSpeed3.valid := by unfold params.valid; norm_num [cfgSpeed3]
  have hL : (startOrJunk gen0 cfgSpeed3 8 1).lfo_length = 2 := by
    show (startState gen0 cfgSpeed3 8 1).lfo_length = 2
    show truncNat ((8 : ℚ) / cfgSpeed3.speed) = 2
    exact truncNat_eq (by norm_num [cfgSpeed3]) (by norm_num [cfgSpeed3])
  have hR : rnd ((8 : ℚ) / cfgSpeed3.speed) = 3 :=
    rnd_eq (by norm_num [cfgSpeed3]) (by norm_num [cfgSpeed3])
  refine ⟨hv, rfl, hL, hR, ?_⟩
  rw [hL, hR]
  norm_num

/-- Claim C8 (amended): for valid parameters and non-negative sample rate
the delay-line length after start is at least 2, and at least 3 whenever
`(delayMinMs + delayDepthMs)/1000 · rate ≥ 1/2` (so that the rounded
sample count is at least 1); the claimed unconditional lower bound 3 fails
when both delay and depth are 0. -/
theorem start_delay_buf_length_lb (gen : sox_wave_t → ℕ → ℚ → ℚ → List ℚ)
    (p : params) (rate : ℚ) (channels : ℕ) (s : flanger)
    (hp : p.valid) (hr : 0 ≤ rate)
    (hok : sox_flanger_start gen p rate channels = .ok s) :
    2 ≤ s.delay_buf_length ∧
    (1/2 ≤ (p.delay_min + p.delay_depth) / 1000 * rate →
      3 ≤ s.delay_buf_length) := by
  have hs := start_ok_state hok
  subst hs
  have hproj : (startState gen p rate channels).delay_buf_length =
      truncNat ((p.delay_min + p.delay_depth) / 1000 * rate + 1/2) + 1 + 1 := rfl
  rw [hproj]
  constructor
  · omega
  · intro hhalf
    have h1 : (1 : ℤ) ≤ ⌊(p.delay_min + p.delay_depth) / 1000 * rate + 1/2⌋ := by
      rw [Int.le_floor]
      push_cast
      linarith
    have : 1 ≤ truncNat ((p.delay_min + p.delay_depth) / 1000 * rate + 1/2) := by
      unfold truncNat
      omega
    omega

/-- Witness for claim C8 (amended) at the default configuration,
rate 44100 (the product 88.2 exceeds 1/2, so the length is at least 3). -/
theorem start_delay_buf_length_lb_witness :
    cfgDefault.valid ∧ (0 : ℚ) ≤ 44100 ∧
    2 ≤ (startOrJunk gen0 cfgDefault 44100 1).delay_buf_length ∧
    1/2 ≤ (cfgDefault.delay_min + cfgDefault.delay_depth) / 1000 * 44100 ∧
    3 ≤ (startOrJunk gen0 cfgDefault 44100 1).delay_buf_length := by
  have hv : cfgDefault.valid := by unfold params.valid; norm_num [cfgDefault]
  have hhalf : (1 : ℚ)/2 ≤ (cfgDefault.delay_min + cfgDefault.delay_depth) / 1000 * 44100 := by
    norm_num [cfgDefault]
  have happ := start_delay_buf_length_lb gen0 cfgDefault 44100 1
    (startOrJunk gen0 cfgDefault 44100 1) hv (by norm_num) rfl
  exact ⟨hv, by norm_num, happ.1, hhalf, happ.2 hhalf⟩

/-- Claim C8 counterexample: with delay 0 ms and depth 0 ms (both valid)
at sample rate 44100, the delay-line length after start is 2, so the
claimed invariant `delayLine.length ≥ 3` fails. -/
theorem start_delay_buf_length_two :
    cfgZeroDepth.valid ∧
    sox_flanger_start gen0 cfgZeroDepth 44100 1
      = .ok (startOrJunk gen0 cfgZeroDepth 44100 1) ∧
    (startOrJunk gen0 cfgZeroDepth 44100 1).delay_buf_length = 2 ∧
    ¬ 3 ≤ (startOrJunk gen0 cfgZeroDepth 44100 1).delay_buf_length := by
  have hv : cfgZeroDepth.valid := by unfold params.valid; norm_num [cfgZeroDepth]
  have hB : (startOrJunk gen0 cfgZeroDepth 44100 1).delay_buf_length = 2 := by
    show (startState gen0 cfgZeroDepth 44100 1).delay_buf_length = 2
    show truncNat ((cfgZeroDepth.delay_min + cfgZeroDepth.delay_depth) / 1000 * 44100
      + 1/2) + 1 + 1 = 2
    rw [truncNat_eq (n := 0) (by norm_num [cfgZeroDepth]) (by norm_num [cfgZeroDepth])]
  exact ⟨hv, rfl, hB, by omega⟩

/-- Claim C7 (amended): for non-negative channel phase, the per-channel
LFO read offset equals `round(channel · lfoLength · channelPhase)`; with
`channelPhase = 1/2` the channel-1 offset is `round(lfoLength/2)`, which
equals exactly half the table length whenever the table length is even
(for odd lengths it is the rounded value `(lfoLength+1)/2`, not exactly
half). -/
theorem lfo_offset_rnd (f : flanger) (c : ℕ) (hp : 0 ≤ f.channel_phase) :
    (lfo_offset f c : ℤ) = rnd ((c : ℚ) * (f.lfo_length : ℚ) * f.channel_phase) ∧
    (f.channel_phase = 1/2 → f.lfo_length % 2 = 0 →
      lfo_offset f 1 = f.lfo_length / 2) := by
  constructor
  · unfold lfo_offset
    exact truncNat_rnd _ (mul_nonneg (mul_nonneg (by positivity) (by positivity)) hp)
  · intro hph heven
    unfold lfo_offset
    rw [hph]
    have hdvd : 2 ∣ f.lfo_length := Nat.dvd_of_mod_eq_zero heven
    have hLk : 2 * (f.lfo_length / 2) = f.lfo_length := Nat.mul_div_cancel' hdvd
    rw [show ((1 : ℕ) : ℚ) * (f.lfo_length : ℚ) * (1/2) + 1/2
        = ((f.lfo_length / 2 : ℕ) : ℚ) + 1/2 by
      rw [show (f.lfo_length : ℚ) = ((2 * (f.lfo_length / 2) : ℕ) : ℚ) by
        rw [hLk]]
      push_cast
      ring]
    exact truncNat_eq (by norm_num) (by norm_num)

/-- Witness for claim C7 (amended) at channel phase 50 %, 2 channels,
rate 4, speed 1 Hz (table length 4, even). -/
theorem lfo_offset_rnd_witness :
    0 ≤ (startOrJunk gen0 cfgPhase50 4 2).channel_phase ∧
    ((lfo_offset (startOrJunk gen0 cfgPhase50 4 2) 1 : ℤ) =
      rnd ((1 : ℚ) * ((startOrJunk gen0 cfgPhase50 4 2).lfo_length : ℚ) *
        (startOrJunk gen0 cfgPhase50 4 2).channel_phase)) ∧
    ((startOrJunk gen0 cfgPhase50 4 2).channel_phase = 1/2 →
      (startOrJunk gen0 cfgPhase50 4 2).lfo_length % 2 = 0 →
      lfo_offset (startOrJunk gen0 cfgPhase50 4 2) 1 =
        (startOrJunk gen0 cfgPhase50 4 2).lfo_length / 2) := by
  have hph : (startOrJunk gen0 cfgPhase50 4 2).channel_phase = 1/2 := by
    show cfgPhase50.channel_phase / 100 = 1/2
    norm_num [cfgPhase50]
  have happ := lfo_offset_rnd (startOrJunk gen0 cfgPhase50 4 2) 1
    (by rw [hph]; norm_num)
  exact ⟨by rw [hph]; norm_num, happ.1, happ.2⟩

/-- Claim C7 counterexample: at the valid configuration with phase 50 %,
speed 1 Hz, rate 3 and 2 channels, the LFO table length is 3 (odd) and the
channel-1 read offset is round(1.5) = 2, which is not exactly half the
table length (3/2). -/
theorem lfo_offset_not_half :
    cfgPhase50.valid ∧
    sox_flanger_start gen0 cfgPhase50 3 2 = .ok (startOrJunk gen0 cfgPhase50 3 2) ∧
    (startOrJunk gen0 cfgPhase50 3 2).channel_phase = 1/2 ∧
    (startOrJunk gen0 cfgPhase50 3 2).lfo_length = 3 ∧
    lfo_offset (startOrJunk gen0 cfgPhase50 3 2) 1 = 2 ∧
    ((lfo_offset (startOrJunk gen0 cfgPhase50 3 2) 1 : ℚ) ≠
      ((startOrJunk gen0 cfgPhase50 3 2).lfo_length : ℚ) / 2) := by
  have hv : cfgPhase50.valid := by unfold params.valid; norm_num [cfgPhase50]
  have hph : (startOrJunk gen0 cfgPhase50 3 2).channel_phase = 1/2 := by
    show cfgPhase50.channel_phase / 100 = 1/2
    norm_num [cfgPhase50]
  have hL : (startOrJunk gen0 cfgPhase50 3 2).lfo_length = 3 := by
    show truncNat ((3 : ℚ) / cfgPhase50.speed) = 3
    exact truncNat_eq (by norm_num [cfgPhase50]) (by norm_num [cfgPhase50])
  have hoff : lfo_offset (startOrJunk gen0 cfgPhase50 3 2) 1 = 2 := by
    unfold lfo_offset
    rw [hph, hL]
    exact truncNat_eq (by norm_num) (by norm_num)
  refine ⟨hv, rfl, hph, hL, hoff, ?_⟩
  rw [hoff, hL]
  norm_num

/-- Claim C1 (amended): for every validated configuration whose LFO table
length is positive, streaming is total and returns success, for any
input/output buffer sizes and any input sample values.  (When
`⌊rate/speed⌋ = 0` — the spec's open question — the first processed frame
evaluates `% f->lfo_length` with a zero divisor, so totality needs the
positivity hypothesis; see the counterexample.) -/
theorem flanger_flow_total (gen : sox_wave_t → ℕ → ℚ → ℚ → List ℚ)
    (p : params) (rate : ℚ) (channels : ℕ) (s : flanger) (clips : ℕ)
    (ibuf : List ℤ) (osamp : ℕ)
    (hp : p.valid)
    (hgen : ∀ sh n lo hi, ∀ v ∈ gen sh n lo hi, 0 ≤ v)
    (hok : sox_flanger_start gen p rate channels = .ok s)
    (hlfo : 0 < s.lfo_length) :
    (sox_flanger_flow channels s clips ibuf osamp).isSome := by
  have hs := start_ok_state hok
  subst hs
  have hB : (startState gen p rate channels).delay_buf_length ≠ 0 := by
    show truncNat ((p.delay_min + p.delay_depth) / 1000 * rate + 1/2) + 1 + 1 ≠ 0
    omega
  have hnn : ∀ v ∈ (startState gen p rate channels).lfo, 0 ≤ v := hgen _ _ _ _
  obtain ⟨f2, os, clips2, hl, -⟩ := flow_loop_total
    (min ibuf.length osamp / channels) channels
    (startState gen p rate channels) clips ibuf (by omega) hB hnn
  unfold sox_flanger_flow
  simp only [hl, Option.isSome_some]

/-- Witness for claim C1 (amended): the default configuration at rate 1,
one channel, one input frame. -/
theorem flanger_flow_total_witness :
    cfgDefault.valid ∧
    sox_flanger_start gen0 cfgDefault 1 1 = .ok (startOrJunk gen0 cfgDefault 1 1) ∧
    0 < (startOrJunk gen0 cfgDefault 1 1).lfo_length ∧
    (sox_flanger_flow 1 (startOrJunk gen0 cfgDefault 1 1) 0 [3] 1).isSome := by
  have hv : cfgDefault.valid := by unfold params.valid; norm_num [cfgDefault]
  have hL : (startOrJunk gen0 cfgDefault 1 1).lfo_length = 2 := by
    show truncNat ((1 : ℚ) / cfgDefault.speed) = 2
    exact truncNat_eq (by norm_num [cfgDefault]) (by norm_num [cfgDefault])
  exact ⟨hv, rfl, by omega,
    flanger_flow_total gen0 cfgDefault 1 1 (startOrJunk gen0 cfgDefault 1 1) 0 [3] 1
      hv gen0_nonneg rfl (by omega)⟩

/-- Claim C1 counterexample: at the valid configuration with speed 10 Hz
and sample rate 1 (one channel), start succeeds with an LFO table of
length ⌊1/10⌋ = 0, and streaming one frame evaluates `% 0` — undefined
behaviour in C, `none` in this embedding — so streaming is not total over
all validated configurations. -/
theorem flanger_flow_div_by_zero :
    cfgFast.valid ∧
    sox_flanger_start gen0 cfgFast 1 1 = .ok (startOrJunk gen0 cfgFast 1 1) ∧
    (startOrJunk gen0 cfgFast 1 1).lfo_length = 0 ∧
    sox_flanger_flow 1 (startOrJunk gen0 cfgFast 1 1) 0 [0] 1 = none := by
  have hv : cfgFast.valid := by unfold params.valid; norm_num [cfgFast]
  have hL : (startOrJunk gen0 cfgFast 1 1).lfo_length = 0 := by
    show truncNat ((1 : ℚ) / cfgFast.speed) = 0
    exact truncNat_eq (by norm_num [cfgFast]) (by norm_num [cfgFast])
  have hB : (startOrJunk gen0 cfgFast 1 1).delay_buf_length = 2 := by
    show truncNat ((cfgFast.delay_min + cfgFast.delay_depth) / 1000 * 1 + 1/2)
      + 1 + 1 = 2
    rw [truncNat_eq (n := 0) (by norm_num [cfgFast]) (by norm_num [cfgFast])]
  refine ⟨hv, rfl, hL, ?_⟩
  have hchan : ∀ (g : flanger), g.lfo_length = 0 →
      ∀ c x clips, flow_channel g c x clips = none := by
    intro g hg c x clips
    unfold flow_channel
    rw [if_pos (Or.inl hg)]
  have hframe : ∀ (g : flanger), g.lfo_length = 0 → g.delay_buf_length ≠ 0 →
      ∀ clips x xs, flow_frame g clips (x :: xs) = none := by
    intro g hg hb clips x xs
    unfold flow_frame
    rw [if_neg hb]
    have hrot := hchan
      { g with delay_buf_pos := (g.delay_buf_pos + g.delay_buf_length - 1) % g.delay_buf_length }
      (by exact hg)
    simp only [flow_chans, hrot]
  unfold sox_flanger_flow
  have hlen : min (List.length [(0 : ℤ)]) 1 / 1 = 1 := by norm_num
  simp only [hlen, flow_loop, List.take_succ_cons, List.take_nil]
  rw [hframe (startOrJunk gen0 cfgFast 1 1) hL (by omega) 0 0 []]

/-- Claim C5: every successful streaming call with positive channel count
on a well-formed state processes exactly `min(isamp, osamp) / channels`
whole frames: both the produced output sample count and the reported
consumed/produced count equal that frame count times `channels`, never a
partial frame. -/
theorem flow_sample_accounting (channels : ℕ) (f : flanger) (clips : ℕ)
    (ibuf : List ℤ) (osamp : ℕ)
    (hch : 0 < channels) (hL : 0 < f.lfo_length) (hB : 0 < f.delay_buf_length)
    (hlfo : ∀ v ∈ f.lfo, 0 ≤ v) :
    (sox_flanger_flow channels f clips ibuf osamp).map
        (fun r => (r.2.1.length, r.2.2.2)) =
      some (min ibuf.length osamp / channels * channels,
            min ibuf.length osamp / channels * channels) := by
  obtain ⟨f2, os, clips2, hl, hlen⟩ := flow_loop_total
    (min ibuf.length osamp / channels) channels f clips ibuf
    (by omega) (by omega) hlfo
  unfold sox_flanger_flow
  have hos : os.length = min ibuf.length osamp / channels * channels := by
    rw [hlen]
    exact min_eq_left (le_trans (Nat.div_mul_le_self _ _) (min_le_left _ _))
  simp only [hl, Option.map_some', hos]

/-- Witness for claim C5 on a minimal well-formed state. -/
theorem flow_sample_accounting_witness :
    0 < 1 ∧ 0 < flowReadyState.lfo_length ∧ 0 < flowReadyState.delay_buf_length ∧
    (∀ v ∈ flowReadyState.lfo, 0 ≤ v) ∧
    (sox_flanger_flow 1 flowReadyState 0 [] 0).map
        (fun r => (r.2.1.length, r.2.2.2)) = some (0, 0) :=
  ⟨Nat.one_pos, Nat.one_pos, Nat.one_pos,
   by simp [flowReadyState, junkFlanger],
   flow_sample_accounting 1 flowReadyState 0 [] 0 Nat.one_pos Nat.one_pos Nat.one_pos
     (by simp [flowReadyState, junkFlanger])⟩

/-- Claim C6: for every configuration with depth 0, feedback 0 and mix 0
(any shape, any interpolation mode) that starts successfully with a
positive LFO table length, and for every stream of in-range input
samples, each output sample equals the corresponding input sample: the
input gain is 1, the mix gain is 0, and the clip-and-round step leaves
in-range samples unchanged. -/
theorem flow_passthrough (gen : sox_wave_t → ℕ → ℚ → ℚ → List ℚ)
    (p : params) (rate : ℚ) (channels : ℕ) (s : flanger) (clips : ℕ)
    (ibuf : List ℤ) (osamp : ℕ)
    (hd : p.delay_depth = 0) (hf : p.feedback_gain = 0) (hm : p.delay_gain = 0)
    (hok : sox_flanger_start gen p rate channels = .ok s)
    (hgen : ∀ sh n lo hi, ∀ v ∈ gen sh n lo hi, 0 ≤ v)
    (hlfo : 0 < s.lfo_length)
    (hin : ∀ x ∈ ibuf, SOX_SAMPLE_MIN ≤ x ∧ x ≤ SOX_SAMPLE_MAX) :
    (sox_flanger_flow channels s clips ibuf osamp).map (fun r => r.2.1) =
      some (ibuf.take (min ibuf.length osamp / channels * channels)) := by
  have hs := start_ok_state hok
  subst hs
  have hg1 : (startState gen p rate channels).in_gain = 1 := by
    show (1 : ℚ) / (1 + p.delay_gain / 100) = 1
    rw [hm]
    norm_num
  have hd1 : (startState gen p rate channels).delay_gain = 0 := by
    show p.delay_gain / 100 / (1 + p.delay_gain / 100)
      * (1 - |p.feedback_gain / 100|) = 0
    rw [hm]
    norm_num
  have hB : (startState gen p rate channels).delay_buf_length ≠ 0 := by
    show truncNat ((p.delay_min + p.delay_depth) / 1000 * rate + 1/2) + 1 + 1 ≠ 0
    omega
  have hnn : ∀ v ∈ (startState gen p rate channels).lfo, 0 ≤ v := hgen _ _ _ _
  obtain ⟨f2, hl, -⟩ := flow_loop_passthru
    (min ibuf.length osamp / channels) channels
    (startState gen p rate channels) clips ibuf hg1 hd1 (by omega) hB hnn hin
  unfold sox_flanger_flow
  simp only [hl, Option.map_some']

/-- Witness for claim C6: depth 0, feedback 0, mix 0 at rate 1, one
channel, empty stream. -/
theorem flow_passthrough_witness :
    (cfgZeroMix.delay_depth = 0 ∧ cfgZeroMix.feedback_gain = 0 ∧
      cfgZeroMix.delay_gain = 0) ∧
    sox_flanger_start gen0 cfgZeroMix 1 1 = .ok (startOrJunk gen0 cfgZeroMix 1 1) ∧
    0 < (startOrJunk gen0 cfgZeroMix 1 1).lfo_length ∧
    (sox_flanger_flow 1 (startOrJunk gen0 cfgZeroMix 1 1) 0 [] 0).map
      (fun r => r.2.1) = some [] := by
  have hL : (startOrJunk gen0 cfgZeroMix 1 1).lfo_length = 2 := by
    show truncNat ((1 : ℚ) / cfgZeroMix.speed) = 2
    exact truncNat_eq (by norm_num [cfgZeroMix]) (by norm_num [cfgZeroMix])
  exact ⟨⟨rfl, rfl, rfl⟩, rfl, by omega,
    flow_passthrough gen0 cfgZeroMix 1 1 (startOrJunk gen0 cfgZeroMix 1 1) 0 [] 0
      rfl rfl rfl rfl gen0_nonneg (by omega) (by simp)⟩

/-- Claim C10: every successful streaming call leaves all
configuration-time fields of the instance unchanged — delay_min,
delay_depth, feedback_gain, delay_gain, in_gain, speed, wave_shape,
channel_phase, interpolation, delay_buf_length, lfo_length, and the LFO
table contents; only the delay-buffer contents, delay_buf_pos, lfo_pos,
delay_last and the clip counter may change. -/
theorem flow_preserves_config (channels : ℕ) (f : flanger) (clips : ℕ)
    (ibuf : List ℤ) (osamp : ℕ) (f2 : flanger) (os : List ℤ) (clips2 n : ℕ)
    (h : sox_flanger_flow channels f clips ibuf osamp = some (f2, os, clips2, n)) :
    f2.delay_min = f.delay_min ∧ f2.delay_depth = f.delay_depth ∧
    f2.feedback_gain = f.feedback_gain ∧ f2.delay_gain = f.delay_gain ∧
    f2.in_gain = f.in_gain ∧ f2.speed = f.speed ∧
    f2.wave_shape = f.wave_shape ∧ f2.channel_phase = f.channel_phase ∧
    f2.interpolation = f.interpolation ∧
    f2.delay_buf_length = f.delay_buf_length ∧ f2.lfo_length = f.lfo_length ∧
    f2.lfo = f.lfo := by
  unfold sox_flanger_flow at h
  cases hl : flow_loop channels (min ibuf.length osamp / channels) f clips ibuf with
  | none =>
    simp only [hl] at h
    exact Option.noConfusion h
  | some r =>
    obtain ⟨f3, os3, clips3⟩ := r
    simp only [hl, Option.some.injEq, Prod.mk.injEq] at h
    obtain ⟨h1, -, -, -⟩ := h
    rw [← h1]
    obtain ⟨c1, c2, c3, c4, c5, c6, c7, c8, c9, c10, c11, c12⟩ :=
      flow_loop_sameConf hl
    exact ⟨c1, c2, c3, c4, c11, c5, c6, c7, c8, c9, c10, c12⟩

/-- Witness for claim C10 at a concrete call. -/
theorem flow_preserves_config_witness :
    sox_flanger_flow 1 junkFlanger 0 [] 0 = some (junkFlanger, [], 0, 0) ∧
    (junkFlanger.delay_min = junkFlanger.delay_min ∧
     junkFlanger.delay_depth = junkFlanger.delay_depth ∧
     junkFlanger.feedback_gain = junkFlanger.feedback_gain ∧
     junkFlanger.delay_gain = junkFlanger.delay_gain ∧
     junkFlanger.in_gain = junkFlanger.in_gain ∧
     junkFlanger.speed = junkFlanger.speed ∧
     junkFlanger.wave_shape = junkFlanger.wave_shape ∧
     junkFlanger.channel_phase = junkFlanger.channel_phase ∧
     junkFlanger.interpolation = junkFlanger.interpolation ∧
     junkFlanger.delay_buf_length = junkFlanger.delay_buf_length ∧
     junkFlanger.lfo_length = junkFlanger.lfo_length ∧
     junkFlanger.lfo = junkFlanger.lfo) :=
  ⟨rfl, flow_preserves_config 1 junkFlanger 0 [] 0 junkFlanger [] 0 0 rfl⟩
